import Mathlib

/-!
# Verification of the semantic-search core (`mcp_server/embeddings.py`,
`mcp_server/tools/semantic_search.py`)

Shallow embedding of the in-memory embedding index and the query tool.

Modelling conventions:

* Machine floats become exact rationals `ℚ`.  The opaque external model
  (`SentenceTransformer.encode` composed with `_l2_normalize`, an external
  numeric backend whose values no claim inspects) is the field
  `Embedder.enc : String → List ℚ`, one normalized vector per text.
* A 2-D numpy array becomes `Mat`: a list of rows plus the recorded column
  count (`shape[1]`).
* `np.argmax` returns the first occurrence of the maximum (documented numpy
  behaviour); `firstMaxIdx` models that scan.
* `np.argpartition(-sims, kth=k-1)[:k]` is documented only up to the set of
  returned indices (order among ties, and which of several exactly tied
  boundary indices is selected, are undefined).  Two models are used: for
  properties invariant under that choice, the stable descending selection
  `argpartitionTake` (indices sorted by descending score, ties in ascending
  index order, first `k` taken), a deterministic refinement of the contract;
  for tie-sensitive properties, `search_topk_sel` takes the selection as an
  explicit parameter constrained only by the contract predicate
  `IsArgpartitionTake`, so theorems quantify over every choice numpy may
  make.  Python's `sorted` (stable) is modelled by Mathlib's stable
  `insertionSort`.
* `raise` becomes an error value; a method that mutates `self` returns the
  new state, and a method that raises before mutating returns the old state
  unchanged, paired with the error.
-/

deriving instance DecidableEq for Except

/-- Dot product of two rational vectors (`q @ row`). -/
def dot (a b : List ℚ) : ℚ := (List.zipWith (· * ·) a b).sum

/-- A 2-D numpy array `(N, D)`: the rows and the recorded column count
(`shape[1]`). -/
structure Mat where
  dim : Nat
  rows : List (List ℚ)
deriving DecidableEq, Repr

/-- `IndexedItem` from `embeddings.py`: minimal info needed by the search
index. -/
structure IndexedItem where
  id : String
  category : String
  filename : String
  path : String
  summary : String
deriving DecidableEq, Inhabited, Repr

/-- The `Embedder` wrapper.  `enc` is the opaque composite of the external
`SentenceTransformer.encode` backend and `_l2_normalize`: the normalized
embedding vector of one text. -/
structure Embedder where
  enc : String → List ℚ

/-- `Embedder.embed`: empty input returns the `(0, 384)` placeholder
(`np.zeros((0, 384))`, the MiniLM model dimension); otherwise one encoded,
normalized row per text, in order, with `shape[1]` taken from the encoded
batch. -/
def Embedder.embed (e : Embedder) (texts : List String) : Mat :=
  if texts.isEmpty then ⟨384, []⟩
  else ⟨(e.enc texts.headI).length, texts.map e.enc⟩

/-- `Embedder.embed_one`: the source returns `self.embed([text])[0:1]`, the
one-row slice of the batch result — still a 2-D `(1, D)` array. -/
def Embedder.embed_one (e : Embedder) (t : String) : Mat :=
  ⟨(e.embed [t]).dim, (e.embed [t]).rows.take 1⟩

/-- A numpy value tagged with its rank, to distinguish the 2-D one-row slice
`a[0:1]` from the 1-D row `a[0]`. -/
inductive NDView where
  | mat2 (m : Mat)
  | vec1 (v : List ℚ)
deriving DecidableEq, Repr

/-- The value `embed_one(text)` actually computed by the source: the 2-D
slice `embed([text])[0:1]`. -/
def Embedder.embed_one_view (e : Embedder) (t : String) : NDView :=
  .mat2 (e.embed_one t)

/-- Follows the spec's words (refinement target): `embed_one(text)` is
`embed([text])[0]`, the single 1-D embedding vector, first row of the batch
result. -/
def Embedder.embed_one_specView (e : Embedder) (t : String) : NDView :=
  .vec1 ((e.embed [t]).rows.headI)

/-- `sims[i]` with numpy-style read (out-of-range defaults to `0`; every use
is in range). -/
def simsGet (sims : List ℚ) (i : Nat) : ℚ := sims.getD i 0

/-- Model of `np.argmax` restricted to a list of candidate indices scanned
left to right: the first index attaining the maximum score. -/
def firstMaxIdx (sims : List ℚ) : List Nat → Nat
  | [] => 0
  | [i] => i
  | i :: j :: rest =>
    if simsGet sims (firstMaxIdx sims (j :: rest)) ≤ simsGet sims i then i
    else firstMaxIdx sims (j :: rest)

/-- `np.argmax(sims)`: index of the first occurrence of the maximum. -/
def argmaxNp (sims : List ℚ) : Nat := firstMaxIdx sims (List.range sims.length)

/-- Descending-score order on indices, ties broken stably: `i` may precede
`j` when `sims[j] ≤ sims[i]`. -/
def simsRel (sims : List ℚ) : Nat → Nat → Prop :=
  fun i j => simsGet sims j ≤ simsGet sims i

instance (sims : List ℚ) : DecidableRel (simsRel sims) :=
  fun _ _ => inferInstanceAs (Decidable (_ ≤ _))

/-- Model of `np.argpartition(-sims, kth=k-1)[:k]`: `k` indices carrying the
`k` largest scores (the numpy contract), in the stable descending order. -/
def argpartitionTake (sims : List ℚ) (k : Nat) : List Nat :=
  (List.insertionSort (simsRel sims) (List.range sims.length)).take k

/-- Descending order on `(index, score)` pairs, as used by
`sorted(..., key=lambda t: -t[1])`. -/
def pairRel : Nat × ℚ → Nat × ℚ → Prop := fun p q => q.2 ≤ p.2

instance : DecidableRel pairRel :=
  fun _ _ => inferInstanceAs (Decidable (_ ≤ _))

/-- The two distinct raise sites of the index, as the spec's typed error
taxonomy: `ValueError` in `build` is `InputMismatch`, `RuntimeError` in the
searches is `EmptyIndex`. -/
inductive BuildErr where
  | inputMismatch
deriving DecidableEq, Repr

inductive SearchErr where
  | emptyIndex
deriving DecidableEq, Repr

/-- State of `EmbeddingIndex`: the embedder handed to the constructor, the
stored item list (a Python list, never `None`), the optional `(N, D)`
matrix, and the recorded dimension. -/
structure EmbeddingIndex where
  embedder : Embedder
  items : List IndexedItem
  matrix : Option Mat
  dim : Option Nat

/-- `EmbeddingIndex.__init__`. -/
def EmbeddingIndex.init (e : Embedder) : EmbeddingIndex :=
  { embedder := e, items := [], matrix := none, dim := none }

/-- `EmbeddingIndex.build`.  Raising before any assignment leaves the state
unchanged, so the error branch returns the original state.  An empty input
stores `np.zeros((0, 1))` and dimension `1`; otherwise the embedded batch is
stored with its item list and `shape[1]`. -/
def EmbeddingIndex.build (st : EmbeddingIndex) (items : List IndexedItem)
    (texts : List String) : EmbeddingIndex × Option BuildErr :=
  if items.length ≠ texts.length then (st, some .inputMismatch)
  else if items.isEmpty then
    ({ st with items := [], matrix := some ⟨1, []⟩, dim := some 1 }, none)
  else
    let vecs := st.embedder.embed texts
    ({ st with items := items, matrix := some vecs, dim := some vecs.dim }, none)

/-- `EmbeddingIndex.is_built`: `self.matrix is not None and self.items is not
None`; `items` is a Python list and never `None`, so only the matrix test is
live. -/
def EmbeddingIndex.is_built (st : EmbeddingIndex) : Bool :=
  st.matrix.isSome && true

/-- `EmbeddingIndex.search_one`: guard `matrix is None or len(items) == 0`,
embed the query, take the dot products against every row, return the
`np.argmax` row's item and score. -/
def EmbeddingIndex.search_one (st : EmbeddingIndex) (q : String) :
    Except SearchErr (IndexedItem × ℚ) :=
  match st.matrix with
  | none => .error .emptyIndex
  | some m =>
    if st.items.length = 0 then .error .emptyIndex
    else
      let qv := (st.embedder.embed_one q).rows.headI
      let sims := m.rows.map (fun r => dot qv r)
      let bestIdx := argmaxNp sims
      .ok (st.items.getD bestIdx default, simsGet sims bestIdx)

/-- `EmbeddingIndex.search_topk`: same guard, clamp `k = max(1, min(k, N))`,
select the top-`k` indices (`argpartition` model), then stable-sort the
`(index, score)` pairs by descending score and pair with the items. -/
def EmbeddingIndex.search_topk (st : EmbeddingIndex) (q : String) (k : ℤ) :
    Except SearchErr (List (IndexedItem × ℚ)) :=
  match st.matrix with
  | none => .error .emptyIndex
  | some m =>
    if st.items.length = 0 then .error .emptyIndex
    else
      let kc := max 1 (min k (st.items.length : ℤ))
      let qv := (st.embedder.embed_one q).rows.headI
      let sims := m.rows.map (fun r => dot qv r)
      let topkIdx := argpartitionTake sims kc.toNat
      let topkSorted :=
        List.insertionSort pairRel (topkIdx.map (fun i => (i, simsGet sims i)))
      .ok (topkSorted.map (fun p => (st.items.getD p.1 default, p.2)))

/-- numpy's documented contract for `np.argpartition(-sims, kth=k-1)[:k]`:
the result holds `min k n` distinct in-range indices whose scores dominate
every non-selected row (equivalently, the selected values are a top-`k`
multiset of `sims`).  Which of several exactly tied boundary indices is
selected, and in which order, is unspecified. -/
def IsArgpartitionTake (sims : List ℚ) (k : Nat) (sel : List Nat) : Prop :=
  sel.length = min k sims.length ∧ sel.Nodup ∧ (∀ i ∈ sel, i < sims.length) ∧
    ∀ i ∈ sel, ∀ j, j < sims.length → j ∉ sel → simsGet sims j ≤ simsGet sims i

/-- `EmbeddingIndex.search_topk` with the `argpartition` realization made an
explicit parameter `sel` (the body is otherwise identical to `search_topk`):
theorems about it quantify over every selection numpy's contract allows. -/
def EmbeddingIndex.search_topk_sel (st : EmbeddingIndex) (q : String) (k : ℤ)
    (sel : List ℚ → Nat → List Nat) :
    Except SearchErr (List (IndexedItem × ℚ)) :=
  match st.matrix with
  | none => .error .emptyIndex
  | some m =>
    if st.items.length = 0 then .error .emptyIndex
    else
      let kc := max 1 (min k (st.items.length : ℤ))
      let qv := (st.embedder.embed_one q).rows.headI
      let sims := m.rows.map (fun r => dot qv r)
      let topkIdx := sel sims kc.toNat
      let topkSorted :=
        List.insertionSort pairRel (topkIdx.map (fun i => (i, simsGet sims i)))
      .ok (topkSorted.map (fun p => (st.items.getD p.1 default, p.2)))

/-! ## The `semantic_search` tool (`tools/semantic_search.py`, `loader.py`) -/

/-- Python's whitespace set for `str.strip()` (the ASCII part). -/
def isPySpace (c : Char) : Bool :=
  c = ' ' || c = '\t' || c = '\n' || c = '\r' || c = '\x0b' || c = '\x0c'

/-- Python's `s.strip()`: drop leading and trailing whitespace. -/
def pyStrip (s : String) : String :=
  ⟨((s.data.dropWhile isPySpace).reverse.dropWhile isPySpace).reverse⟩

/-- `loader.get_embedding_text`: the canonical embedding string
`"<category>/<filename>: <summary.strip()>"`. -/
def get_embedding_text (item : IndexedItem) : String :=
  item.category ++ "/" ++ item.filename ++ ": " ++ pyStrip item.summary

/-- A Python value passed as the tool argument: a string, or any
non-string value (only `isinstance(·, str)` is inspected). -/
inductive PyVal where
  | str (s : String)
  | nonStr
deriving DecidableEq

/-- The module-level state of `tools/semantic_search.py`: the lazy
singletons `_embedder`, `_index` and the `_built` flag. -/
structure ToolCtx where
  embedder : Option Embedder
  index : Option EmbeddingIndex
  built : Bool

/-- The fresh module state: all three globals unset. -/
def ToolCtx.fresh : ToolCtx := ⟨none, none, false⟩

/-- Python's banker's rounding of a rational to the nearest integer
(round-half-to-even). -/
def roundHalfEven (q : ℚ) : ℤ :=
  let f := ⌊q⌋
  let r := q - f
  if r < 1 / 2 then f
  else if 1 / 2 < r then f + 1
  else if f % 2 = 0 then f else f + 1

/-- Python's `round(x, 6)` on the exact-rational model. -/
def pyRound6 (q : ℚ) : ℚ := (roundHalfEven (q * 1000000) : ℚ) / 1000000

/-- The spec's typed error taxonomy for the tool: the `ValueError` raised on
a bad argument is `InvalidInput`; an `EmptyIndex` raised by the index
propagates. -/
inductive ToolErr where
  | invalidInput
  | emptyIndex
deriving DecidableEq, Repr

/-- `_ensure_index`, parametrised by the external collaborators: `defE`
models `Embedder()` (the real backend) and `kbItems` the cached
`scan_knowledge_base()` result used by `get_items_for_embedding`.  Creates
the missing singletons and builds the index once. -/
def ensure_index (defE : Embedder) (kbItems : List IndexedItem)
    (ctx : ToolCtx) : ToolCtx × EmbeddingIndex :=
  let emb := ctx.embedder.getD defE
  let idx0 := ctx.index.getD (EmbeddingIndex.init emb)
  if ctx.built then ({ embedder := some emb, index := some idx0, built := true }, idx0)
  else
    let pairs := kbItems.map (fun it => (it, get_embedding_text it))
    let items := pairs.map (fun p => p.1)
    let texts := pairs.map (fun p => get_embedding_text p.1)
    let idx1 := (idx0.build items texts).1
    ({ embedder := some emb, index := some idx1, built := true }, idx1)

/-- `semantic_search(problem_markdown)`: reject a non-string or
empty/whitespace-only argument before touching the singletons; otherwise
ensure the index and return the best match with the score rounded to six
digits. -/
def semantic_search (defE : Embedder) (kbItems : List IndexedItem)
    (ctx : ToolCtx) (p : PyVal) :
    ToolCtx × Except ToolErr (IndexedItem × ℚ) :=
  match p with
  | .nonStr => (ctx, .error .invalidInput)
  | .str s =>
    if pyStrip s = "" then (ctx, .error .invalidInput)
    else
      let r := ensure_index defE kbItems ctx
      match r.2.search_one s with
      | .error .emptyIndex => (r.1, .error .emptyIndex)
      | .ok (it, sc) => (r.1, .ok (it, pyRound6 sc))

/-- The similarity row `q @ matrix.T` of a built index, expressed over the
corpus texts: one dot product of the query embedding against each stored
row. -/
def simsOf (e : Embedder) (q : String) (texts : List String) : List ℚ :=
  texts.map (fun t => dot (e.enc q) (e.enc t))

/-! ## Infrastructure lemmas -/

instance (sims : List ℚ) : IsTotal Nat (simsRel sims) :=
  ⟨fun i j => le_total (simsGet sims j) (simsGet sims i)⟩

instance (sims : List ℚ) : IsTrans Nat (simsRel sims) :=
  ⟨fun _ _ _ hab hbc => le_trans hbc hab⟩

instance : IsTotal (Nat × ℚ) pairRel :=
  ⟨fun p q => le_total q.2 p.2⟩

instance : IsTrans (Nat × ℚ) pairRel :=
  ⟨fun _ _ _ hab hbc => le_trans hbc hab⟩

lemma take_one_of_ne_nil {α : Type} {l : List α} [Inhabited α] (h : l ≠ []) :
    l.take 1 = [l.headI] := by
  cases l with
  | nil => exact absurd rfl h
  | cons a t => simp

lemma insertionSort_ne_nil {α : Type} (r : α → α → Prop) [DecidableRel r]
    {l : List α} (h : l ≠ []) : List.insertionSort r l ≠ [] := by
  intro he
  have hlen := (List.perm_insertionSort r l).length_eq
  rw [he] at hlen
  exact h (List.length_eq_zero.mp hlen.symm)

lemma firstMaxIdx_mem (sims : List ℚ) :
    ∀ L : List Nat, L ≠ [] → firstMaxIdx sims L ∈ L := by
  intro L
  induction L with
  | nil => simp
  | cons i rest ih =>
    intro _
    cases rest with
    | nil => simp [firstMaxIdx]
    | cons j rest' =>
      rw [firstMaxIdx]
      split
      · exact List.mem_cons_self _ _
      · exact List.mem_cons_of_mem _ (ih (by simp))

lemma firstMaxIdx_le (sims : List ℚ) :
    ∀ L : List Nat, ∀ j ∈ L, simsGet sims j ≤ simsGet sims (firstMaxIdx sims L) := by
  intro L
  induction L with
  | nil => simp
  | cons i rest ih =>
    intro j hj
    cases rest with
    | nil =>
      simp at hj
      simp [firstMaxIdx, hj]
    | cons a rest' =>
      rw [firstMaxIdx]
      rcases List.mem_cons.mp hj with hji | hjr
      · subst hji
        split
        · exact le_refl _
        · next hc => exact le_of_not_le hc
      · have hr := ih j hjr
        split
        · next hc => exact le_trans hr hc
        · exact hr

lemma firstMaxIdx_first (sims : List ℚ) :
    ∀ L : List Nat, L.Pairwise (· < ·) →
      ∀ j ∈ L, simsGet sims j = simsGet sims (firstMaxIdx sims L) →
        firstMaxIdx sims L ≤ j := by
  intro L
  induction L with
  | nil => simp
  | cons i rest ih =>
    intro hpw j hj heq
    have hpw' : rest.Pairwise (· < ·) := (List.pairwise_cons.mp hpw).2
    have hlt : ∀ b ∈ rest, i < b := (List.pairwise_cons.mp hpw).1
    cases rest with
    | nil =>
      simp at hj
      simp [firstMaxIdx, hj]
    | cons a rest' =>
      rw [firstMaxIdx] at heq ⊢
      split
      · next hc =>
        rcases List.mem_cons.mp hj with hji | hjr
        · exact le_of_eq hji.symm
        · exact le_of_lt (hlt j hjr)
      · next hc =>
        rcases List.mem_cons.mp hj with hji | hjr
        · exfalso
          rw [if_neg hc] at heq
          subst hji
          exact hc (le_of_eq heq.symm)
        · rw [if_neg hc] at heq
          exact ih hpw' j hjr heq

lemma headI_insertionSort (sims : List ℚ) :
    ∀ L : List Nat, L ≠ [] →
      (List.insertionSort (simsRel sims) L).headI = firstMaxIdx sims L := by
  intro L
  induction L with
  | nil => simp
  | cons i rest ih =>
    intro _
    cases rest with
    | nil => simp [firstMaxIdx]
    | cons j rest' =>
      have hne : List.insertionSort (simsRel sims) (j :: rest') ≠ [] :=
        insertionSort_ne_nil _ (by simp)
      obtain ⟨b, t, hbt⟩ := List.exists_cons_of_ne_nil hne
      have hhead : firstMaxIdx sims (j :: rest') = b := by
        have h := ih (by simp)
        rw [hbt] at h
        simpa using h.symm
      show (List.orderedInsert (simsRel sims) i
        (List.insertionSort (simsRel sims) (j :: rest'))).headI = _
      rw [hbt, firstMaxIdx, hhead]
      by_cases hc : simsRel sims i b
      · rw [List.orderedInsert_of_le _ _ hc]
        have hc' : simsGet sims b ≤ simsGet sims i := hc
        simp [hc']
      · simp only [List.orderedInsert, if_neg hc]
        simp [simsRel] at hc
        simp [not_le.mpr hc, List.headI]

lemma texts_ne_nil_of {items : List IndexedItem} {texts : List String}
    (hlen : items.length = texts.length) (hne : items ≠ []) : texts ≠ [] := by
  intro h
  subst h
  simp at hlen
  exact hne hlen

lemma embed_rows_of_ne_nil (e : Embedder) {texts : List String} (h : texts ≠ []) :
    (e.embed texts).rows = texts.map e.enc := by
  simp [Embedder.embed, h]

lemma embed_one_rows (e : Embedder) (q : String) :
    (e.embed_one q).rows = [e.enc q] := by
  simp [Embedder.embed_one, Embedder.embed]

lemma build_pos (st : EmbeddingIndex) {items : List IndexedItem} {texts : List String}
    (hlen : items.length = texts.length) (hne : items ≠ []) :
    st.build items texts =
      ({ embedder := st.embedder, items := items,
         matrix := some (st.embedder.embed texts),
         dim := some (st.embedder.embed texts).dim }, none) := by
  simp [EmbeddingIndex.build, hlen, hne]

lemma search_one_build (st : EmbeddingIndex) {items : List IndexedItem}
    {texts : List String} (hlen : items.length = texts.length) (hne : items ≠ [])
    (q : String) :
    ((st.build items texts).1).search_one q =
      .ok (items.getD (argmaxNp (simsOf st.embedder q texts)) default,
           simsGet (simsOf st.embedder q texts)
             (argmaxNp (simsOf st.embedder q texts))) := by
  have htne := texts_ne_nil_of hlen hne
  have hlen0 : ¬ items.length = 0 := by
    intro h
    exact hne (List.length_eq_zero.mp h)
  rw [build_pos st hlen hne]
  simp only [EmbeddingIndex.search_one, embed_one_rows, List.headI, if_neg hlen0,
    embed_rows_of_ne_nil _ htne, List.map_map]
  rfl

lemma search_topk_build (st : EmbeddingIndex) {items : List IndexedItem}
    {texts : List String} (hlen : items.length = texts.length) (hne : items ≠ [])
    (q : String) (k : ℤ) :
    ((st.build items texts).1).search_topk q k =
      .ok ((List.insertionSort pairRel
        ((argpartitionTake (simsOf st.embedder q texts)
            (max 1 (min k (items.length : ℤ))).toNat).map
          (fun i => (i, simsGet (simsOf st.embedder q texts) i)))).map
        (fun p => (items.getD p.1 default, p.2))) := by
  have htne := texts_ne_nil_of hlen hne
  have hlen0 : ¬ items.length = 0 := by
    intro h
    exact hne (List.length_eq_zero.mp h)
  rw [build_pos st hlen hne]
  simp only [EmbeddingIndex.search_topk, embed_one_rows, List.headI, if_neg hlen0,
    embed_rows_of_ne_nil _ htne, List.map_map]
  rfl

lemma search_topk_sel_build (st : EmbeddingIndex) {items : List IndexedItem}
    {texts : List String} (hlen : items.length = texts.length) (hne : items ≠ [])
    (q : String) (k : ℤ) (sel : List ℚ → Nat → List Nat) :
    ((st.build items texts).1).search_topk_sel q k sel =
      .ok ((List.insertionSort pairRel
        ((sel (simsOf st.embedder q texts)
            (max 1 (min k (items.length : ℤ))).toNat).map
          (fun i => (i, simsGet (simsOf st.embedder q texts) i)))).map
        (fun p => (items.getD p.1 default, p.2))) := by
  have htne := texts_ne_nil_of hlen hne
  have hlen0 : ¬ items.length = 0 := by
    intro h
    exact hne (List.length_eq_zero.mp h)
  rw [build_pos st hlen hne]
  simp only [EmbeddingIndex.search_topk_sel, embed_one_rows, List.headI, if_neg hlen0,
    embed_rows_of_ne_nil _ htne, List.map_map]
  rfl

/-- The embedded `search_topk` is `search_topk_sel` at the stable
realization: one admissible choice among those `IsArgpartitionTake`
describes. -/
lemma search_topk_eq_sel (st : EmbeddingIndex) (q : String) (k : ℤ) :
    st.search_topk q k = st.search_topk_sel q k argpartitionTake := rfl

lemma simsOf_length (e : Embedder) (q : String) (texts : List String) :
    (simsOf e q texts).length = texts.length := by
  simp [simsOf]

lemma argmaxNp_lt {sims : List ℚ} (h : sims ≠ []) : argmaxNp sims < sims.length := by
  have hr : List.range sims.length ≠ [] := by
    simp [List.range_eq_nil]
    intro hlen
    exact h hlen
  have := firstMaxIdx_mem sims (List.range sims.length) hr
  exact List.mem_range.mp this

lemma getD_map_of_lt {α β : Type} (f : α → β) (l : List α) {i : Nat}
    (h : i < l.length) (d : α) (d' : β) : (l.map f).getD i d' = f (l.getD i d) := by
  simp [List.getD_eq_getElem?_getD, List.getElem?_map, List.getElem?_eq_getElem h]

/-- A generic witness embedder used to instantiate hypotheses of the claim
theorems at a concrete input. -/
def wEmb : Embedder := ⟨fun _ => [1]⟩

/-- A second witness embedder whose backend dimension is the reference 384. -/
def w384 : Embedder := ⟨fun _ => List.replicate 384 0⟩

/-- A concrete witness item. -/
def wItem : IndexedItem := ⟨"nlp/a.py", "nlp", "a.py", "knowledge_base/nlp/a.py", "text classifier"⟩

/-! ## Claims -/

/-- C4: for every index state and all `items`, `texts` with differing
lengths, `build` fails with the `InputMismatch` error and returns the state
exactly as it was (the Python method raises before any assignment). -/
theorem claim_C4 (st : EmbeddingIndex) (items : List IndexedItem)
    (texts : List String) (h : items.length ≠ texts.length) :
    st.build items texts = (st, some .inputMismatch) := by
  simp [EmbeddingIndex.build, h]

/-- Witness for C4 at a concrete mismatched input. -/
theorem claim_C4_witness :
    ([wItem].length ≠ ([] : List String).length) ∧
      (EmbeddingIndex.init wEmb).build [wItem] [] =
        (EmbeddingIndex.init wEmb, some .inputMismatch) :=
  ⟨by decide, claim_C4 (EmbeddingIndex.init wEmb) [wItem] [] (by decide)⟩

/-- C5: `build([], [])` succeeds (no error), leaves a valid built-empty
state — zero stored rows, `is_built()` true — and every subsequent
`search_one` or `search_topk` on that state fails with `EmptyIndex`. -/
theorem claim_C5 (st : EmbeddingIndex) (q : String) (k : ℤ) :
    (st.build [] []).2 = none ∧
      ((st.build [] []).1).is_built = true ∧
      ((st.build [] []).1).items = [] ∧
      ((st.build [] []).1).matrix = some ⟨1, []⟩ ∧
      ((st.build [] []).1).search_one q = .error .emptyIndex ∧
      ((st.build [] []).1).search_topk q k = .error .emptyIndex := by
  refine ⟨rfl, rfl, rfl, rfl, ?_, ?_⟩ <;>
    simp [EmbeddingIndex.build, EmbeddingIndex.search_one, EmbeddingIndex.search_topk]

/-- C7 counterexample: at a concrete embedder and text, `embed_one(text)` is
not `embed([text])[0]` — the code computes the 2-D slice `embed([text])[0:1]`,
a one-row array, not the 1-D first row. -/
theorem claim_C7_cx : wEmb.embed_one_view "x" ≠ wEmb.embed_one_specView "x" := by
  decide

/-- C7 amended: `embed_one(text)` returns `embed([text])[0:1]`, the one-row
`(1, D)` slice of the batch result — a sequence whose sole element is the
vector `embed([text])[0]`. -/
theorem claim_C7 (e : Embedder) (t : String) :
    e.embed_one_view t = .mat2 ⟨(e.embed [t]).dim, [(e.embed [t]).rows.headI]⟩ := by
  simp [Embedder.embed_one_view, Embedder.embed_one, Embedder.embed]

/-- C8: a non-string argument, or one whose text is empty or
whitespace-only, makes `semantic_search` fail with `InvalidInput`, with the
module state returned untouched — the guard runs before `_ensure_index`, so
no embedding call or index build is attempted (the result is the same for
every embedder and corpus). -/
theorem claim_C8 (defE : Embedder) (kbItems : List IndexedItem) (ctx : ToolCtx)
    (p : PyVal) (h : p = .nonStr ∨ ∃ s, p = .str s ∧ pyStrip s = "") :
    semantic_search defE kbItems ctx p = (ctx, .error .invalidInput) := by
  rcases h with h | ⟨s, hp, hs⟩
  · subst h
    rfl
  · subst hp
    simp [semantic_search, hs]

/-- Witness for C8 at a whitespace-only string. -/
theorem claim_C8_witness :
    ((PyVal.str " \t ") = .nonStr ∨ ∃ s, (PyVal.str " \t ") = .str s ∧ pyStrip s = "") ∧
      semantic_search wEmb [wItem] ToolCtx.fresh (.str " \t ") =
        (ToolCtx.fresh, .error .invalidInput) :=
  ⟨Or.inr ⟨" \t ", rfl, by decide⟩,
   claim_C8 wEmb [wItem] ToolCtx.fresh (.str " \t ") (Or.inr ⟨" \t ", rfl, by decide⟩)⟩

/-- C9: `embed` on an empty sequence returns a zero-row result (no error)
with the fixed placeholder dimension 384, and whenever the backend's
vectors have the reference dimension 384, every non-empty call records that
same dimension. -/
theorem claim_C9 (e : Embedder) :
    (e.embed []).rows = [] ∧ (e.embed []).dim = 384 ∧
      ((∀ t, (e.enc t).length = 384) →
        ∀ texts : List String, texts ≠ [] → (e.embed texts).dim = 384) := by
  refine ⟨rfl, rfl, ?_⟩
  intro h384 texts hne
  simp [Embedder.embed, hne, h384]

/-- Witness for C9: the 384-dimensional witness embedder. -/
theorem claim_C9_witness :
    (∀ t, (w384.enc t).length = 384) ∧
      (w384.embed []).dim = 384 ∧ (w384.embed ["a"]).dim = 384 :=
  ⟨fun _ => List.length_replicate 384 (0 : ℚ), (claim_C9 w384).2.1,
   (claim_C9 w384).2.2 (fun _ => List.length_replicate 384 (0 : ℚ)) ["a"] (by simp)⟩

/-- C10: on an index whose matrix was never built (`matrix is None`) or
whose item list is empty, `search_one` and `search_topk` both fail with the
same `EmptyIndex` error as an empty built index — the guard treats the two
conditions identically. -/
theorem claim_C10 (st : EmbeddingIndex) (q : String) (k : ℤ)
    (h : st.matrix = none ∨ st.items = []) :
    st.search_one q = .error .emptyIndex ∧ st.search_topk q k = .error .emptyIndex := by
  rcases h with h | h
  · simp [EmbeddingIndex.search_one, EmbeddingIndex.search_topk, h]
  · cases hm : st.matrix with
    | none => simp [EmbeddingIndex.search_one, EmbeddingIndex.search_topk, hm]
    | some m => simp [EmbeddingIndex.search_one, EmbeddingIndex.search_topk, hm, h]

lemma topk_length (sims : List ℚ) (kc : Nat) (items : List IndexedItem) :
    ((List.insertionSort pairRel ((argpartitionTake sims kc).map
        (fun i => (i, simsGet sims i)))).map
      (fun p => (items.getD p.1 default, p.2))).length = min kc sims.length := by
  rw [List.length_map, (List.perm_insertionSort pairRel _).length_eq, List.length_map,
    argpartitionTake, List.length_take,
    (List.perm_insertionSort (simsRel sims) _).length_eq, List.length_range]

lemma topk_pairwise (pairs : List (Nat × ℚ)) (items : List IndexedItem) :
    ((List.insertionSort pairRel pairs).map
      (fun p => (items.getD p.1 default, p.2))).Pairwise
        (fun a b : IndexedItem × ℚ => b.2 ≤ a.2) := by
  exact List.Pairwise.map _ (fun a b h => h) (List.sorted_insertionSort pairRel pairs)

lemma topk_members (sims : List ℚ) (kc : Nat) (items : List IndexedItem)
    (hslen : sims.length = items.length) :
    ∃ idxs : List Nat,
      (List.insertionSort pairRel ((argpartitionTake sims kc).map
          (fun i => (i, simsGet sims i)))).map
        (fun p => (items.getD p.1 default, p.2)) =
        idxs.map (fun i => (items.getD i default, simsGet sims i)) ∧
      idxs.Nodup ∧ (∀ i ∈ idxs, i < items.length) ∧
      (∀ i ∈ idxs, ∀ j, j < items.length → j ∉ idxs →
        simsGet sims j ≤ simsGet sims i) := by
  simp only [argpartitionTake]
  set sorted := List.insertionSort (simsRel sims) (List.range sims.length) with hsorted
  set pairs := (sorted.take kc).map (fun i => (i, simsGet sims i)) with hpairs
  set ts := List.insertionSort pairRel pairs with hts
  have hpermp : List.Perm ts pairs := List.perm_insertionSort _ _
  have hfst : pairs.map Prod.fst = sorted.take kc := by
    rw [hpairs, List.map_map]
    exact List.map_id _
  have hmemiff : ∀ i : Nat, i ∈ ts.map Prod.fst ↔ i ∈ sorted.take kc := by
    intro i
    rw [← hfst]
    exact (hpermp.map Prod.fst).mem_iff
  have hsortperm : List.Perm sorted (List.range sims.length) :=
    List.perm_insertionSort _ _
  have hmemsorted : ∀ i : Nat, i ∈ sorted ↔ i < sims.length := by
    intro i
    rw [hsortperm.mem_iff, List.mem_range]
  refine ⟨ts.map Prod.fst, ?_, ?_, ?_, ?_⟩
  · rw [List.map_map]
    apply List.map_congr_left
    intro p hp
    have hp' : p ∈ pairs := hpermp.mem_iff.mp hp
    obtain ⟨i, _, rfl⟩ := List.mem_map.mp hp'
    rfl
  · have hnod : sorted.Nodup := hsortperm.nodup_iff.mpr (List.nodup_range _)
    have hnodtake : (sorted.take kc).Nodup := hnod.sublist (List.take_sublist _ _)
    rw [← hfst] at hnodtake
    exact ((hpermp.map Prod.fst).nodup_iff).mpr hnodtake
  · intro i hi
    have := List.mem_of_mem_take ((hmemiff i).mp hi)
    rw [hmemsorted i] at this
    omega
  · intro i hi j hj hjn
    have hitake : i ∈ sorted.take kc := (hmemiff i).mp hi
    have hjtake : j ∉ sorted.take kc := fun hc => hjn ((hmemiff j).mpr hc)
    have hjsorted : j ∈ sorted := (hmemsorted j).mpr (by omega)
    have hjdrop : j ∈ sorted.drop kc := by
      rcases List.mem_append.mp
        ((List.take_append_drop kc sorted) ▸ hjsorted) with h | h
      · exact absurd h hjtake
      · exact h
    have hpw : sorted.Pairwise (simsRel sims) :=
      List.sorted_insertionSort _ _
    have hpw2 := hpw
    rw [← List.take_append_drop kc sorted] at hpw2
    exact (List.pairwise_append.mp hpw2).2.2 i hitake j hjdrop

/-- The stable realization embedded in `search_topk` satisfies numpy's
`argpartition` contract. -/
lemma argpartitionTake_spec (sims : List ℚ) (k : Nat) :
    IsArgpartitionTake sims k (argpartitionTake sims k) := by
  simp only [argpartitionTake]
  set sorted := List.insertionSort (simsRel sims) (List.range sims.length) with hs
  have hperm : List.Perm sorted (List.range sims.length) := List.perm_insertionSort _ _
  have hmem : ∀ i : Nat, i ∈ sorted ↔ i < sims.length := by
    intro i
    rw [hperm.mem_iff, List.mem_range]
  refine ⟨?_, ?_, ?_, ?_⟩
  · rw [List.length_take, hperm.length_eq, List.length_range]
  · exact (hperm.nodup_iff.mpr (List.nodup_range _)).sublist (List.take_sublist _ _)
  · intro i hi
    exact (hmem i).mp (List.mem_of_mem_take hi)
  · intro i hi j hj hjn
    have hjsorted : j ∈ sorted := (hmem j).mpr hj
    have hjdrop : j ∈ sorted.drop k := by
      rcases List.mem_append.mp ((List.take_append_drop k sorted) ▸ hjsorted) with h | h
      · exact absurd h hjn
      · exact h
    have hpw : sorted.Pairwise (simsRel sims) := List.sorted_insertionSort _ _
    rw [← List.take_append_drop k sorted] at hpw
    exact (List.pairwise_append.mp hpw).2.2 i hi j hjdrop

/-- C6: after every successful `build(items, texts)`, the stored matrix has
exactly one row per stored item, row `i` is the embedding of `texts[i]` and
corresponds to `items[i]`, and `search_one` pairs the returned item with the
score computed from that same item's row. -/
theorem claim_C6 (st : EmbeddingIndex) (items : List IndexedItem)
    (texts : List String)
    (hlen : items.length = texts.length) (hne : items ≠ []) :
    (st.build items texts).2 = none ∧
    ∃ m : Mat, ((st.build items texts).1).matrix = some m ∧
      ((st.build items texts).1).items = items ∧
      m.rows.length = items.length ∧
      (∀ i, i < items.length → m.rows.getD i [] = st.embedder.enc (texts.getD i "")) ∧
      (∀ q, ∃ b, b < items.length ∧
        ((st.build items texts).1).search_one q =
          .ok (items.getD b default,
               dot (st.embedder.enc q) (m.rows.getD b []))) := by
  have htne := texts_ne_nil_of hlen hne
  refine ⟨?_, st.embedder.embed texts, ?_, ?_, ?_, ?_, ?_⟩
  · simp [build_pos st hlen hne]
  · simp [build_pos st hlen hne]
  · simp [build_pos st hlen hne]
  · rw [embed_rows_of_ne_nil _ htne]
    simp [← hlen]
  · intro i hi
    rw [embed_rows_of_ne_nil _ htne]
    exact getD_map_of_lt _ _ (hlen ▸ hi) "" []
  · intro q
    have hslen : (simsOf st.embedder q texts).length = texts.length :=
      simsOf_length _ _ _
    have hsne : simsOf st.embedder q texts ≠ [] := by
      intro h0
      rw [h0] at hslen
      exact htne (List.length_eq_zero.mp hslen.symm)
    have hb' : argmaxNp (simsOf st.embedder q texts) < texts.length := by
      have := argmaxNp_lt hsne
      omega
    refine ⟨argmaxNp (simsOf st.embedder q texts), by omega, ?_⟩
    rw [search_one_build st hlen hne q]
    have h2 : (st.embedder.embed texts).rows.getD (argmaxNp (simsOf st.embedder q texts)) [] =
        st.embedder.enc (texts.getD (argmaxNp (simsOf st.embedder q texts)) "") := by
      rw [embed_rows_of_ne_nil _ htne]
      exact getD_map_of_lt _ _ hb' "" []
    have h1 : simsGet (simsOf st.embedder q texts) (argmaxNp (simsOf st.embedder q texts)) =
        dot (st.embedder.enc q)
          (st.embedder.enc (texts.getD (argmaxNp (simsOf st.embedder q texts)) "")) := by
      show (simsOf st.embedder q texts).getD _ 0 = _
      exact getD_map_of_lt (fun t => dot (st.embedder.enc q) (st.embedder.enc t))
        texts hb' "" 0
    rw [h2, h1]

/-- C3: on every built index with `n ≥ 1` items, `search_topk(q, k)` returns
`min(k, n)` results for positive `k` and exactly one result for `k ≤ 0`
(`k` is clamped, not an error), the returned pairs carry index-aligned items
and scores for a duplicate-free set of row indices whose scores dominate
every non-selected row (the true top-`k`), and the sequence is ordered by
descending score. -/
theorem claim_C3 (st : EmbeddingIndex) (items : List IndexedItem)
    (texts : List String) (q : String) (k : ℤ)
    (hlen : items.length = texts.length) (hne : items ≠ []) :
    ∃ res, ((st.build items texts).1).search_topk q k = .ok res ∧
      res.length = (if 0 < k then min k.toNat items.length else 1) ∧
      List.Pairwise (fun a b : IndexedItem × ℚ => b.2 ≤ a.2) res ∧
      ∃ idxs : List Nat,
        res = idxs.map (fun i => (items.getD i default,
          simsGet (simsOf st.embedder q texts) i)) ∧
        idxs.Nodup ∧
        (∀ i ∈ idxs, i < items.length) ∧
        (∀ i ∈ idxs, ∀ j, j < items.length → j ∉ idxs →
          simsGet (simsOf st.embedder q texts) j ≤
            simsGet (simsOf st.embedder q texts) i) := by
  have hn : 0 < items.length := List.length_pos.mpr hne
  have hslen : (simsOf st.embedder q texts).length = items.length := by
    rw [simsOf_length, hlen]
  refine ⟨_, search_topk_build st hlen hne q k, ?_,
    topk_pairwise _ items, topk_members _ _ items hslen⟩
  rw [topk_length, hslen]
  split <;> omega

/-- Witness for C3 on a concrete one-item index with `k = 5`. -/
theorem claim_C3_witness :
    ([wItem].length = ["t"].length) ∧ ([wItem] ≠ []) ∧
      (∃ res, (((EmbeddingIndex.init wEmb).build [wItem] ["t"]).1).search_topk "q" 5 =
          .ok res ∧
        res.length = (if 0 < (5 : ℤ) then min (5 : ℤ).toNat [wItem].length else 1) ∧
        List.Pairwise (fun a b : IndexedItem × ℚ => b.2 ≤ a.2) res ∧
        ∃ idxs : List Nat,
          res = idxs.map (fun i => ([wItem].getD i default,
            simsGet (simsOf (EmbeddingIndex.init wEmb).embedder "q" ["t"]) i)) ∧
          idxs.Nodup ∧
          (∀ i ∈ idxs, i < [wItem].length) ∧
          (∀ i ∈ idxs, ∀ j, j < [wItem].length → j ∉ idxs →
            simsGet (simsOf (EmbeddingIndex.init wEmb).embedder "q" ["t"]) j ≤
              simsGet (simsOf (EmbeddingIndex.init wEmb).embedder "q" ["t"]) i)) :=
  ⟨rfl, by decide, claim_C3 (EmbeddingIndex.init wEmb) [wItem] ["t"] "q" 5 rfl (by decide)⟩

/-- Witness for C6 on a concrete one-item index. -/
theorem claim_C6_witness :
    ([wItem].length = ["t"].length) ∧ ([wItem] ≠ []) ∧
      (((EmbeddingIndex.init wEmb).build [wItem] ["t"]).2 = none ∧
       ∃ m : Mat, ((((EmbeddingIndex.init wEmb).build [wItem] ["t"]).1)).matrix = some m ∧
         ((((EmbeddingIndex.init wEmb).build [wItem] ["t"]).1)).items = [wItem] ∧
         m.rows.length = [wItem].length ∧
         (∀ i, i < [wItem].length →
           m.rows.getD i [] = (EmbeddingIndex.init wEmb).embedder.enc (["t"].getD i "")) ∧
         (∀ q, ∃ b, b < [wItem].length ∧
           ((((EmbeddingIndex.init wEmb).build [wItem] ["t"]).1)).search_one q =
             .ok ([wItem].getD b default,
                  dot ((EmbeddingIndex.init wEmb).embedder.enc q) (m.rows.getD b [])))) :=
  ⟨rfl, by decide, claim_C6 (EmbeddingIndex.init wEmb) [wItem] ["t"] rfl (by decide)⟩

/-- C2: on every built index with at least one item, `search_one` returns
the stored item of the row with the maximum similarity score against the
embedded query; among rows sharing that exact maximum, the lowest-index row
(first in build order) is returned, together with that row's score. -/
theorem claim_C2 (st : EmbeddingIndex) (items : List IndexedItem)
    (texts : List String) (q : String)
    (hlen : items.length = texts.length) (hne : items ≠ []) :
    ∃ b, ((st.build items texts).1).search_one q =
        .ok (items.getD b default, simsGet (simsOf st.embedder q texts) b) ∧
      b < items.length ∧
      (∀ j, j < items.length →
        simsGet (simsOf st.embedder q texts) j ≤ simsGet (simsOf st.embedder q texts) b) ∧
      (∀ j, j < items.length →
        simsGet (simsOf st.embedder q texts) j = simsGet (simsOf st.embedder q texts) b →
          b ≤ j) := by
  set sims := simsOf st.embedder q texts with hsims
  have hslen : sims.length = items.length := by
    rw [hsims, simsOf_length, hlen]
  have hsne : sims ≠ [] := by
    intro h0
    rw [h0] at hslen
    exact hne (List.length_eq_zero.mp hslen.symm)
  refine ⟨argmaxNp sims, search_one_build st hlen hne q, ?_, ?_, ?_⟩
  · have := argmaxNp_lt hsne
    omega
  · intro j hj
    exact firstMaxIdx_le sims (List.range sims.length) j
      (List.mem_range.mpr (by omega))
  · intro j hj heq
    exact firstMaxIdx_first sims (List.range sims.length)
      (List.pairwise_lt_range _) j (List.mem_range.mpr (by omega)) heq

/-- Witness for C2 on a concrete one-item index. -/
theorem claim_C2_witness :
    ([wItem].length = ["t"].length) ∧ ([wItem] ≠ []) ∧
      (∃ b, (((EmbeddingIndex.init wEmb).build [wItem] ["t"]).1).search_one "q" =
          .ok ([wItem].getD b default,
               simsGet (simsOf (EmbeddingIndex.init wEmb).embedder "q" ["t"]) b) ∧
        b < [wItem].length ∧
        (∀ j, j < [wItem].length →
          simsGet (simsOf (EmbeddingIndex.init wEmb).embedder "q" ["t"]) j ≤
            simsGet (simsOf (EmbeddingIndex.init wEmb).embedder "q" ["t"]) b) ∧
        (∀ j, j < [wItem].length →
          simsGet (simsOf (EmbeddingIndex.init wEmb).embedder "q" ["t"]) j =
            simsGet (simsOf (EmbeddingIndex.init wEmb).embedder "q" ["t"]) b →
            b ≤ j)) :=
  ⟨rfl, by decide, claim_C2 (EmbeddingIndex.init wEmb) [wItem] ["t"] "q" rfl (by decide)⟩

/-- On a one-row corpus the only contract-compliant selection is `[0]`. -/
lemma wSel_valid :
    IsArgpartitionTake (simsOf (EmbeddingIndex.init wEmb).embedder "q" ["t"]) 1 [0] := by
  refine ⟨by simp [simsOf_length], by simp, by simp [simsOf_length], ?_⟩
  intro i hi j hj hjn
  simp at hi hjn
  simp [simsOf_length] at hj
  exact absurd (by omega : j = 0) hjn

/-- A second witness item, distinct from `wItem`. -/
def wItem2 : IndexedItem :=
  ⟨"nlp/b.py", "nlp", "b.py", "knowledge_base/nlp/b.py", "other example"⟩

/-- An adversarial but contract-compliant tie selection: on the tied corpus
below it selects index `1`, a choice numpy's unspecified introselect is free
to make. -/
def cxSel : List ℚ → Nat → List Nat := fun _ _ => [1]

/-- C1 counterexample: on a corpus of two distinct items whose embedding
texts are identical (so the two rows, and hence the two scores, tie
exactly), there is a selection satisfying numpy's `argpartition` contract at
this very input under which `search_topk(q, 1)` heads with item `1` while
`search_one(q)` returns the first-occurrence argmax, item `0`: the program
leaves the tied choice to numpy and so does not guarantee the claimed
`(item, score)` pair equality. -/
theorem claim_C1_cx :
    IsArgpartitionTake (simsOf (EmbeddingIndex.init wEmb).embedder "q" ["t", "t"]) 1
      (cxSel (simsOf (EmbeddingIndex.init wEmb).embedder "q" ["t", "t"]) 1) ∧
    (((EmbeddingIndex.init wEmb).build [wItem, wItem2] ["t", "t"]).1).search_one "q" ≠
      ((((EmbeddingIndex.init wEmb).build [wItem, wItem2] ["t", "t"]).1).search_topk_sel
          "q" 1 cxSel).map List.headI := by
  constructor
  · refine ⟨by simp [cxSel, simsOf_length], by simp [cxSel],
      by simp [cxSel, simsOf_length], ?_⟩
    intro i hi j hj hjn
    simp [cxSel] at hi hjn
    simp [simsOf_length] at hj
    subst hi
    have hj0 : j = 0 := by omega
    subst hj0
    simp [simsOf, simsGet]
  · have h1 := @search_one_build (EmbeddingIndex.init wEmb)
      [wItem, wItem2] ["t", "t"] rfl (by decide) "q"
    have h2 := @search_topk_sel_build (EmbeddingIndex.init wEmb)
      [wItem, wItem2] ["t", "t"] rfl (by decide) "q" 1 cxSel
    have hb : argmaxNp (simsOf (EmbeddingIndex.init wEmb).embedder "q" ["t", "t"]) = 0 := by
      have hsims : simsOf (EmbeddingIndex.init wEmb).embedder "q" ["t", "t"] =
          [dot (wEmb.enc "q") (wEmb.enc "t"), dot (wEmb.enc "q") (wEmb.enc "t")] := rfl
      have hr : List.range
          (simsOf (EmbeddingIndex.init wEmb).embedder "q" ["t", "t"]).length = [0, 1] := rfl
      rw [argmaxNp, hr, hsims]
      simp [firstMaxIdx, simsGet]
    rw [h1, h2, hb]
    have hkc : (max 1 (min (1 : ℤ) (([wItem, wItem2].length : ℤ)))).toNat = 1 := by decide
    rw [hkc]
    show Except.ok (wItem, _) ≠ _
    simp only [cxSel, List.map_cons, List.map_nil, List.insertionSort,
      List.orderedInsert, Except.map, List.headI]
    intro h
    rw [Except.ok.injEq, Prod.mk.injEq] at h
    exact absurd h.1 (by decide)

/-- C1 amended: on every built index with at least one item, for every
selection satisfying numpy's `argpartition` contract, `search_topk(q, 1)`
returns exactly one `(item, score)` pair whose score equals the score
returned by `search_one(q)`; and whenever the maximal score is attained by a
unique row, the whole pair — item included — coincides with `search_one`'s.
(Under exact ties the item component may be any tied row, as the
counterexample shows; the stable realization embedded in `search_topk`
agrees with `search_one` there, but numpy does not promise it.) -/
theorem claim_C1 (st : EmbeddingIndex) (items : List IndexedItem)
    (texts : List String) (q : String)
    (hlen : items.length = texts.length) (hne : items ≠ [])
    (sel : List ℚ → Nat → List Nat)
    (hsel : IsArgpartitionTake (simsOf st.embedder q texts) 1
      (sel (simsOf st.embedder q texts) 1)) :
    ∃ it sc it',
      ((st.build items texts).1).search_one q = .ok (it, sc) ∧
      ((st.build items texts).1).search_topk_sel q 1 sel = .ok [(it', sc)] ∧
      ((∀ j1 j2, j1 < items.length → j2 < items.length →
          simsGet (simsOf st.embedder q texts) j1 = sc →
          simsGet (simsOf st.embedder q texts) j2 = sc → j1 = j2) →
        it' = it) := by
  set sims := simsOf st.embedder q texts with hsims
  have hslen : sims.length = items.length := by
    rw [hsims, simsOf_length, hlen]
  have hn : 1 ≤ items.length := List.length_pos.mpr hne
  have hsne : sims ≠ [] := by
    intro h0
    rw [h0] at hslen
    simp at hslen
    omega
  have hb_lt : argmaxNp sims < sims.length := argmaxNp_lt hsne
  obtain ⟨hL, _, hmem, hdom⟩ := hsel
  have hL1 : (sel sims 1).length = 1 := by
    rw [hL]
    omega
  obtain ⟨i0, hi0⟩ := List.length_eq_one.mp hL1
  have hi0_lt : i0 < sims.length := hmem i0 (hi0 ▸ List.mem_singleton_self i0)
  have hscore : simsGet sims i0 = simsGet sims (argmaxNp sims) := by
    apply le_antisymm
    · exact firstMaxIdx_le sims (List.range sims.length) i0
        (List.mem_range.mpr hi0_lt)
    · by_cases hcase : argmaxNp sims = i0
      · rw [hcase]
      · refine hdom i0 (hi0 ▸ List.mem_singleton_self i0) (argmaxNp sims) hb_lt ?_
        rw [hi0]
        simp [hcase]
  have hkc : (max 1 (min (1 : ℤ) ((items.length : ℤ)))).toNat = 1 := by omega
  refine ⟨items.getD (argmaxNp sims) default, simsGet sims (argmaxNp sims),
    items.getD i0 default, search_one_build st hlen hne q, ?_, ?_⟩
  · rw [search_topk_sel_build st hlen hne q 1 sel, hkc, ← hsims, hi0]
    simp only [List.map_cons, List.map_nil, List.insertionSort, List.orderedInsert]
    rw [hscore]
  · intro huniq
    have : i0 = argmaxNp sims := huniq i0 (argmaxNp sims)
      (by omega) (by omega) hscore rfl
    rw [this]

/-- Witness for C1 on a concrete one-item index with the only possible
selection. -/
theorem claim_C1_witness :
    ([wItem].length = ["t"].length) ∧ ([wItem] ≠ []) ∧
      IsArgpartitionTake (simsOf (EmbeddingIndex.init wEmb).embedder "q" ["t"]) 1
        ((fun _ _ => [0]) (simsOf (EmbeddingIndex.init wEmb).embedder "q" ["t"]) 1) ∧
      (∃ it sc it',
        (((EmbeddingIndex.init wEmb).build [wItem] ["t"]).1).search_one "q" =
          .ok (it, sc) ∧
        (((EmbeddingIndex.init wEmb).build [wItem] ["t"]).1).search_topk_sel "q" 1
          (fun _ _ => [0]) = .ok [(it', sc)] ∧
        ((∀ j1 j2, j1 < [wItem].length → j2 < [wItem].length →
            simsGet (simsOf (EmbeddingIndex.init wEmb).embedder "q" ["t"]) j1 = sc →
            simsGet (simsOf (EmbeddingIndex.init wEmb).embedder "q" ["t"]) j2 = sc →
            j1 = j2) →
          it' = it)) :=
  ⟨rfl, by decide, wSel_valid,
   claim_C1 (EmbeddingIndex.init wEmb) [wItem] ["t"] "q" rfl (by decide)
     (fun _ _ => [0]) wSel_valid⟩

/-- Witness for C10 at the never-built initial state. -/
theorem claim_C10_witness :
    ((EmbeddingIndex.init wEmb).matrix = none ∨ (EmbeddingIndex.init wEmb).items = []) ∧
      (EmbeddingIndex.init wEmb).search_one "q" = .error .emptyIndex ∧
      (EmbeddingIndex.init wEmb).search_topk "q" 3 = .error .emptyIndex :=
  ⟨Or.inl rfl, claim_C10 (EmbeddingIndex.init wEmb) "q" 3 (Or.inl rfl)⟩
